import Mathlib

/-!
Shallow embedding of the financial-document-analyzer service
(`tools.py` and `main.py`), together with theorems settling the frozen
claims about it.

Modelling conventions:
* Python `str` document text is modelled as `List Char`; identifiers,
  paths and the fixed recommendation / risk-level strings as `String`.
* Python `float` money values are modelled as `ℚ`.  Every value the code
  builds is an exact decimal, and the claims compare such decimals, so
  no rounding behaviour is lost.
* The regex `label[^\d]{0,25}([\$€£]?\s?[\d,]+(?:\.\d+)?)` used by
  `_extract_money_metric` is modelled by an explicit leftmost-match,
  greedy-with-backtracking matcher; `\d` is modelled as the ASCII digits.
* Raising Python code is modelled with `Except String`.
-/

set_option maxRecDepth 200000

instance {ε α : Type} [DecidableEq ε] [DecidableEq α] : DecidableEq (Except ε α) :=
  fun x y =>
    match x, y with
    | .ok a, .ok b =>
      if h : a = b then isTrue (by rw [h])
      else isFalse (fun hc => by cases hc; exact h rfl)
    | .error a, .error b =>
      if h : a = b then isTrue (by rw [h])
      else isFalse (fun hc => by cases hc; exact h rfl)
    | .ok _, .error _ => isFalse (fun hc => by cases hc)
    | .error _, .ok _ => isFalse (fun hc => by cases hc)

/-- ASCII decimal digit, the model of the regex class `\d`. -/
def isAsciiDigit (c : Char) : Bool := decide ('0' ≤ c) && decide (c ≤ '9')

/-- Python whitespace (`\s` over ASCII): space, tab, newline, CR, VT, FF. -/
def isPySpace (c : Char) : Bool :=
  c = ' ' || c = '\t' || c = '\n' || c = '\r' || c = '\x0b' || c = '\x0c'

/-- Characters matched by the class `[\$€£]` of the money regex. -/
def isCurrencyChar (c : Char) : Bool := c = '$' || c = '€' || c = '£'

/-- Characters matched by the class `[\d,]` of the money regex. -/
def isMoneyChar (c : Char) : Bool := isAsciiDigit c || c = ','

/-- Match `[\d,]+(?:\.\d+)?` at the head of `s` (greedy), returning the
matched characters.  Fails when no `[\d,]` character is present. -/
def matchNumTail (s : List Char) : Option (List Char) :=
  let run := s.takeWhile isMoneyChar
  if run.isEmpty then none
  else
    match s.drop run.length with
    | '.' :: r =>
      let frac := r.takeWhile isAsciiDigit
      if frac.isEmpty then some run else some (run ++ '.' :: frac)
    | _ => some run

/-- Match `\s?[\d,]+(?:\.\d+)?` at the head of `s`, trying the greedy
(space-consuming) alternative first, as the backtracking engine does. -/
def matchSpaceNum (s : List Char) : Option (List Char) :=
  match s with
  | [] => none
  | c :: rest =>
    if isPySpace c then
      match matchNumTail rest with
      | some cap => some (c :: cap)
      | none => matchNumTail s
    else matchNumTail s

/-- Match the whole capture group `[\$€£]?\s?[\d,]+(?:\.\d+)?` at the head
of `s`, trying the currency-consuming alternative first. -/
def matchGroupAt (s : List Char) : Option (List Char) :=
  match s with
  | [] => none
  | c :: rest =>
    if isCurrencyChar c then
      match matchSpaceNum rest with
      | some cap => some (c :: cap)
      | none => matchSpaceNum s
    else matchSpaceNum s

/-- Backtrack the greedy gap `[^\d]{0,25}`: try a gap of `g` characters
first, then shorter gaps down to `0`.  `g` is always at most the length
of the leading non-digit run of `s`, so every tried gap matches `[^\d]*`. -/
def gapAttempt (s : List Char) : Nat → Option (List Char)
  | 0 => matchGroupAt s
  | g + 1 =>
    match matchGroupAt (s.drop (g + 1)) with
    | some cap => some cap
    | none => gapAttempt s g

/-- Case-insensitive literal match of `label` at the head of `s`
(the regex is compiled with `re.IGNORECASE`); returns the remainder. -/
def stripLabelAt : List Char → List Char → Option (List Char)
  | [], s => some s
  | _ :: _, [] => none
  | l :: ls, c :: cs =>
    if Char.toLower c = Char.toLower l then stripLabelAt ls cs else none

/-- One anchored attempt of the full pattern at the head of `s`: the
label, then the greedy bounded gap, then the capture group. -/
def attemptAt (label s : List Char) : Option (List Char) :=
  match stripLabelAt label s with
  | none => none
  | some rest =>
    gapAttempt rest (min 25 ((rest.takeWhile (fun c => !(isAsciiDigit c))).length))

/-- `re.search` of the money pattern: try each start position from the
left and return the first successful capture. -/
def searchCapture (label : List Char) : List Char → Option (List Char)
  | [] => attemptAt label []
  | c :: tail =>
    match attemptAt label (c :: tail) with
    | some cap => some cap
    | none => searchCapture label tail

/-- The cleaning step `re.sub(r"[^\d.]", "", group)`. -/
def cleanCapture (l : List Char) : List Char :=
  l.filter (fun c => isAsciiDigit c || c = '.')

/-- Numeric value of a digit string (most significant first). -/
def digitsVal (l : List Char) : Nat :=
  l.foldl (fun a c => a * 10 + (c.toNat - 48)) 0

/-- Python `float()` restricted to the digit-and-dot alphabet produced by
`cleanCapture`: rejects the empty string and a lone or repeated dot,
otherwise reads an exact decimal. -/
def parseCleanedQ (s : List Char) : Option ℚ :=
  let ip := s.takeWhile (fun c => c ≠ '.')
  match s.drop ip.length with
  | [] => if ip.isEmpty then none else some ((digitsVal ip : ℚ))
  | _ :: fp =>
    if fp.any (fun c => c = '.') then none
    else if ip.isEmpty && fp.isEmpty then none
    else some ((digitsVal ip : ℚ) + (digitsVal fp : ℚ) / ((10 : ℚ) ^ fp.length))

/-- `_extract_money_metric(text, label)` from `tools.py`: regex search,
clean the capture, parse it; `None` on no match or a non-float clean. -/
def extract_money_metric (text label : List Char) : Option ℚ :=
  match searchCapture label text with
  | none => none
  | some cap => parseCleanedQ (cleanCapture cap)

/-- `re.sub(r"\s+", " ", text)`: collapse each whitespace run to one space. -/
def normalizeWS (text : List Char) : List Char :=
  (text.foldl
    (fun (acc : List Char × Bool) c =>
      if isPySpace c then
        if acc.2 then acc else (' ' :: acc.1, true)
      else (c :: acc.1, false))
    (([] : List Char), false)).1.reverse

/-- Result shape of `InvestmentTool.analyze_investment_tool`. -/
structure InvestmentAnalysis where
  query : List Char
  revenue : Option ℚ
  net_income : Option ℚ
  cash : Option ℚ
  debt : Option ℚ
  recommendation : String
  recommendation_rationale : String
deriving DecidableEq

/-- `InvestmentTool.analyze_investment_tool` from `tools.py`. -/
def analyze_investment_tool (text query : List Char) :
    Except String InvestmentAnalysis :=
  if text.isEmpty then
    .error "Document text is required for investment analysis."
  else
    let t := normalizeWS text
    let revenue := extract_money_metric t "revenue".data
    let net_income := extract_money_metric t "net income".data
    let cash := extract_money_metric t "cash".data
    let debt := extract_money_metric t "debt".data
    let rr : String × String :=
      match revenue, net_income with
      | some _, some ni =>
        if 0 < ni then
          match debt with
          | none => ("BUY", "Company is profitable with no detected debt.")
          | some d =>
            if d * (5 / 100 : ℚ) < ni then
              ("BUY", "Positive profitability and manageable leverage.")
            else ("HOLD", "Profitable but debt level requires monitoring.")
        else if ni < 0 then
          ("CAUTIOUS", "Negative net income increases downside risk.")
        else ("HOLD", "Insufficient financial metrics for strong conviction.")
      | _, _ => ("HOLD", "Insufficient financial metrics for strong conviction.")
    .ok ⟨query, revenue, net_income, cash, debt, rr.1, rr.2⟩

/-- Result shape of `RiskTool.create_risk_assessment_tool`. -/
structure RiskAssessment where
  detected_risks : List String
  risk_count : Nat
  overall_risk_level : String
deriving DecidableEq

/-- The fixed keyword table of `RiskTool`, in the dict's insertion order. -/
def risk_keywords : List (String × String) :=
  [("supply chain", "Supply-chain exposure mentioned."),
   ("regulatory", "Regulatory risk discussed."),
   ("litigation", "Legal/litigation risk detected."),
   ("volatility", "Market volatility highlighted."),
   ("inflation", "Inflationary pressure referenced."),
   ("recession", "Recession-related concern detected.")]

/-- Python `pat in hay` at the head: `hay` starts with `pat`. -/
def listStartsWith : List Char → List Char → Bool
  | _, [] => true
  | [], _ :: _ => false
  | c :: cs, p :: ps => c = p && listStartsWith cs ps

/-- Python substring test `pat in hay`. -/
def containsSub : List Char → List Char → Bool
  | s, pat =>
    if listStartsWith s pat then true
    else
      match s with
      | [] => false
      | _ :: t => containsSub t pat

/-- `RiskTool.create_risk_assessment_tool` from `tools.py`. -/
def create_risk_assessment_tool (text : List Char) :
    Except String RiskAssessment :=
  if text.isEmpty then
    .error "Document text is required for risk assessment."
  else
    let lowered := text.map Char.toLower
    let detected :=
      (risk_keywords.filter (fun kw => containsSub lowered kw.1.data)).map
        (fun kw => kw.2)
    let level :=
      if detected.length ≥ 4 then "HIGH"
      else if detected.length ≥ 2 then "MEDIUM"
      else "LOW"
    .ok ⟨detected, detected.length, level⟩

/-- Recommendation returned by `analyze_investment_tool` on a successful
run (and `""` on the empty-text error, which the pipeline rules out);
projection used to state the recommendation-policy claims. -/
def recOf (text query : List Char) : String :=
  match analyze_investment_tool text query with
  | .ok r => r.recommendation
  | .error _ => ""

lemma isEmpty_false_of_ne_nil {l : List Char} (h : l ≠ []) : l.isEmpty = false := by
  cases l with
  | nil => exact absurd rfl h
  | cons a t => rfl

lemma parseCleanedQ_nonneg {s : List Char} {q : ℚ} (h : parseCleanedQ s = some q) :
    0 ≤ q := by
  unfold parseCleanedQ at h
  dsimp only at h
  split at h
  · split at h
    · exact absurd h (by simp)
    · injection h with h1
      rw [← h1]
      exact Nat.cast_nonneg _
  · split at h
    · exact absurd h (by simp)
    · split at h
      · exact absurd h (by simp)
      · injection h with h1
        rw [← h1]
        refine add_nonneg (Nat.cast_nonneg _) (div_nonneg (Nat.cast_nonneg _) ?_)
        positivity

/-- C10: `_extract_money_metric` never returns a negative value — the
capture group of its regex cannot contain a minus sign — and on
"Net Income: -$50,000" it parses the positive value 50000. -/
theorem C10_extract_nonneg :
    (∀ text label q, extract_money_metric text label = some q → 0 ≤ q) ∧
    extract_money_metric (normalizeWS "Net Income: -$50,000".data)
      "net income".data = some 50000 := by
  constructor
  · intro text label q h
    unfold extract_money_metric at h
    split at h
    · exact absurd h (by simp)
    · exact parseCleanedQ_nonneg h
  · decide

/-- C10 witness: the universal non-negativity statement applied to the
concrete parse of "Net Income: -$50,000". -/
theorem C10_extract_nonneg_witness : (0 : ℚ) ≤ 50000 :=
  C10_extract_nonneg.1 _ _ _ C10_extract_nonneg.2

/-- C1 (code bug evidence): on text containing "Net Income: -$50,000" the
code parses net income as the positive value 50000 (the regex capture
excludes the sign) and recommends "BUY", not "CAUTIOUS"; the `CAUTIOUS`
branch of `analyze_investment_tool` is unreachable. -/
theorem C1_negative_net_income_eval :
    extract_money_metric (normalizeWS "Revenue: $100,000 Net Income: -$50,000".data)
      "net income".data = some 50000 ∧
    recOf "Revenue: $100,000 Net Income: -$50,000".data "q".data = "BUY" ∧
    recOf "Revenue: $100,000 Net Income: -$50,000".data "q".data ≠ "CAUTIOUS" := by
  have h2 : extract_money_metric (normalizeWS "Revenue: $100,000 Net Income: -$50,000".data)
      "net income".data = some 50000 := by decide
  have h1 : extract_money_metric (normalizeWS "Revenue: $100,000 Net Income: -$50,000".data)
      "revenue".data = some 100000 := by decide
  have h4 : extract_money_metric (normalizeWS "Revenue: $100,000 Net Income: -$50,000".data)
      "debt".data = none := by decide
  have he : ("Revenue: $100,000 Net Income: -$50,000".data).isEmpty = false := by decide
  have hpos : (0 : ℚ) < 50000 := by norm_num
  have hrec : recOf "Revenue: $100,000 Net Income: -$50,000".data "q".data = "BUY" := by
    simp only [recOf, analyze_investment_tool, he, Bool.false_eq_true, if_false,
      h1, h2, h4, if_pos hpos]
  exact ⟨h2, hrec, by rw [hrec]; decide⟩

/-- C4: the recommendation policy — BUY when revenue and net income parse,
net income is positive, and either no debt is detected or net income
exceeds 5 percent of debt; HOLD when positive net income does not exceed
5 percent of detected debt; HOLD when revenue and net income cannot both
be extracted; and the concrete Revenue 500,000 / Net Income 10,000 /
Debt 400,000 document yields HOLD. -/
theorem C4_recommendation_policy :
    (∀ text query, text ≠ [] →
      (∀ rv n, extract_money_metric (normalizeWS text) "revenue".data = some rv →
        extract_money_metric (normalizeWS text) "net income".data = some n →
        0 < n →
        ((extract_money_metric (normalizeWS text) "debt".data = none →
            recOf text query = "BUY") ∧
         (∀ d, extract_money_metric (normalizeWS text) "debt".data = some d →
            (d * (5 / 100 : ℚ) < n → recOf text query = "BUY") ∧
            (¬ d * (5 / 100 : ℚ) < n → recOf text query = "HOLD")))) ∧
      ((extract_money_metric (normalizeWS text) "revenue".data = none ∨
        extract_money_metric (normalizeWS text) "net income".data = none) →
        recOf text query = "HOLD")) ∧
    recOf "Revenue: $500,000 Net Income: $10,000 Debt: $400,000".data "q".data
      = "HOLD" := by
  constructor
  · intro text query ht
    have he := isEmpty_false_of_ne_nil ht
    constructor
    · intro rv n hrv hn hpos
      constructor
      · intro hd
        simp only [recOf, analyze_investment_tool, he, Bool.false_eq_true, if_false,
          hrv, hn, hd, if_pos hpos]
      · intro d hd
        constructor
        · intro hlt
          simp only [recOf, analyze_investment_tool, he, Bool.false_eq_true, if_false,
            hrv, hn, hd, if_pos hpos, if_pos hlt]
        · intro hge
          simp only [recOf, analyze_investment_tool, he, Bool.false_eq_true, if_false,
            hrv, hn, hd, if_pos hpos, if_neg hge]
    · intro hmiss
      rcases hmiss with hr | hni
      · simp only [recOf, analyze_investment_tool, he, Bool.false_eq_true, if_false, hr]
      · cases hrev : extract_money_metric (normalizeWS text) "revenue".data with
        | none =>
          simp only [recOf, analyze_investment_tool, he, Bool.false_eq_true, if_false, hrev]
        | some rv =>
          simp only [recOf, analyze_investment_tool, he, Bool.false_eq_true, if_false,
            hrev, hni]
  · have h1 : extract_money_metric
        (normalizeWS "Revenue: $500,000 Net Income: $10,000 Debt: $400,000".data)
        "revenue".data = some 500000 := by decide
    have h2 : extract_money_metric
        (normalizeWS "Revenue: $500,000 Net Income: $10,000 Debt: $400,000".data)
        "net income".data = some 10000 := by decide
    have h4 : extract_money_metric
        (normalizeWS "Revenue: $500,000 Net Income: $10,000 Debt: $400,000".data)
        "debt".data = some 400000 := by decide
    have he : ("Revenue: $500,000 Net Income: $10,000 Debt: $400,000".data).isEmpty
        = false := by decide
    have hpos : (0 : ℚ) < 10000 := by norm_num
    have hcmp : ¬ ((400000 : ℚ) * (5 / 100) < 10000) := by norm_num
    simp only [recOf, analyze_investment_tool, he, Bool.false_eq_true, if_false,
      h1, h2, h4, if_pos hpos, if_neg hcmp]

/-- C4 witness: the general policy instantiated on the concrete
Revenue 500,000 / Net Income 10,000 / Debt 400,000 document. -/
theorem C4_recommendation_policy_witness :
    recOf "Revenue: $500,000 Net Income: $10,000 Debt: $400,000".data "w".data
      = "HOLD" := by
  have h := (C4_recommendation_policy.1
      "Revenue: $500,000 Net Income: $10,000 Debt: $400,000".data "w".data
      (by decide)).1 500000 10000 (by decide) (by decide) (by norm_num)
  exact (h.2 400000 (by decide)).2 (by norm_num)

lemma listStartsWith_iff (p s : List Char) :
    listStartsWith s p = true ↔ ∃ r, s = p ++ r := by
  induction p generalizing s with
  | nil =>
    simp only [listStartsWith, List.nil_append]
    exact ⟨fun _ => ⟨s, rfl⟩, fun _ => by trivial⟩
  | cons c cs ih =>
    cases s with
    | nil =>
      simp only [listStartsWith, List.cons_append]
      constructor
      · intro h
        exact absurd h (by simp)
      · rintro ⟨r, hr⟩
        exact absurd hr (by simp)
    | cons a as =>
      simp only [listStartsWith, Bool.and_eq_true, decide_eq_true_eq, ih,
        List.cons_append, List.cons.injEq]
      constructor
      · rintro ⟨rfl, r, rfl⟩
        exact ⟨r, rfl, rfl⟩
      · rintro ⟨r, rfl, rfl⟩
        exact ⟨rfl, r, rfl⟩

lemma containsSub_iff (s p : List Char) :
    containsSub s p = true ↔ ∃ l r, s = l ++ p ++ r := by
  induction s with
  | nil =>
    unfold containsSub
    by_cases hsw : listStartsWith [] p = true
    · obtain ⟨r, hr⟩ := (listStartsWith_iff p []).mp hsw
      simp only [hsw, if_true]
      exact ⟨fun _ => ⟨[], r, by simpa using hr⟩, fun _ => by trivial⟩
    · simp only [Bool.not_eq_true] at hsw
      simp only [hsw, Bool.false_eq_true, if_false]
      constructor
      · intro h
        exact absurd h (by simp)
      · rintro ⟨l, r, hr⟩
        have hl : l = [] ∧ p ++ r = [] := by
          constructor
          · cases l with
            | nil => rfl
            | cons x xs => exact absurd hr.symm (by simp)
          · cases l with
            | nil => simpa using hr.symm
            | cons x xs => exact absurd hr.symm (by simp)
        have hp : p = [] := by
          cases p with
          | nil => rfl
          | cons x xs => exact absurd hl.2 (by simp)
        rw [hp] at hsw
        exact absurd hsw (by simp [listStartsWith])
  | cons a t ih =>
    unfold containsSub
    by_cases hsw : listStartsWith (a :: t) p = true
    · obtain ⟨r, hr⟩ := (listStartsWith_iff p (a :: t)).mp hsw
      simp only [hsw, if_true]
      exact ⟨fun _ => ⟨[], r, by simpa using hr⟩, fun _ => by trivial⟩
    · simp only [Bool.not_eq_true] at hsw
      simp only [hsw, Bool.false_eq_true, if_false, ih]
      constructor
      · rintro ⟨l, r, rfl⟩
        exact ⟨a :: l, r, rfl⟩
      · rintro ⟨l, r, hr⟩
        cases l with
        | nil =>
          exfalso
          have : listStartsWith (a :: t) p = true :=
            (listStartsWith_iff p (a :: t)).mpr ⟨r, by simpa using hr⟩
          rw [this] at hsw
          exact Bool.noConfusion hsw
        | cons x xs =>
          simp only [List.cons_append, List.cons.injEq] at hr
          exact ⟨xs, r, hr.2⟩

lemma mem_map_snd_filter {p : String × String → Bool} {l : List (String × String)}
    {kw : String × String} (hkw : kw ∈ l)
    (hinj : l.Pairwise (fun a b => a.2 ≠ b.2)) :
    kw.2 ∈ (l.filter p).map (fun x => x.2) ↔ p kw = true := by
  induction l with
  | nil => cases hkw
  | cons h t ih =>
    rw [List.pairwise_cons] at hinj
    rcases List.mem_cons.mp hkw with rfl | hmem
    · constructor
      · intro hin
        by_cases hp : p kw = true
        · exact hp
        · exfalso
          rw [List.filter_cons_of_neg (by simpa using hp)] at hin
          obtain ⟨x, hx, hx2⟩ := List.mem_map.mp hin
          exact hinj.1 x (List.mem_of_mem_filter hx) hx2.symm
      · intro hp
        rw [List.filter_cons_of_pos hp]
        exact List.mem_map.mpr ⟨kw, List.mem_cons_self _ _, rfl⟩
    · have hne : h.2 ≠ kw.2 := hinj.1 kw hmem
      by_cases hp : p h = true
      · rw [List.filter_cons_of_pos hp, List.map_cons, List.mem_cons]
        rw [ih hmem hinj.2]
        constructor
        · rintro (heq | hin)
          · exact absurd heq.symm hne
          · exact hin
        · intro hin
          exact Or.inr hin
      · rw [List.filter_cons_of_neg (by simpa using hp)]
        exact ih hmem hinj.2

/-- Risk assessment returned by `create_risk_assessment_tool` on a
successful run (and a dummy on the empty-text error, which the pipeline
rules out); projection used to state the risk claims. -/
def risk_ok (text : List Char) : RiskAssessment :=
  match create_risk_assessment_tool text with
  | .ok r => r
  | .error _ => ⟨[], 0, ""⟩

/-- C5: the risk assessment counts, over the six fixed categories, those
that occur case-insensitively as substrings of the text, each flagged at
most once; the overall level is HIGH at count 4 or more, MEDIUM at 2 or
more, else LOW; and the two concrete scenarios evaluate as claimed. -/
theorem C5_risk_assessment :
    (∀ text, text ≠ [] →
      create_risk_assessment_tool text = .ok (risk_ok text) ∧
      (risk_ok text).risk_count = (risk_ok text).detected_risks.length ∧
      (risk_ok text).risk_count ≤ 6 ∧
      (risk_ok text).detected_risks.Nodup ∧
      (∀ kw, kw ∈ risk_keywords →
        (kw.2 ∈ (risk_ok text).detected_risks ↔
          ∃ l rr, text.map Char.toLower = l ++ kw.1.data ++ rr)) ∧
      (risk_ok text).overall_risk_level =
        (if 4 ≤ (risk_ok text).risk_count then "HIGH"
         else if 2 ≤ (risk_ok text).risk_count then "MEDIUM" else "LOW")) ∧
    ((risk_ok "The filing cites litigation, inflation and regulatory matters.".data).risk_count = 3 ∧
     (risk_ok "The filing cites litigation, inflation and regulatory matters.".data).overall_risk_level = "MEDIUM") ∧
    ((risk_ok "All figures are nominal.".data).risk_count = 0 ∧
     (risk_ok "All figures are nominal.".data).overall_risk_level = "LOW") := by
  refine ⟨?_, by decide, by decide⟩
  intro text ht
  have he := isEmpty_false_of_ne_nil ht
  refine ⟨?_, ?_, ?_, ?_, ?_, ?_⟩
  · simp only [risk_ok, create_risk_assessment_tool, he, Bool.false_eq_true, if_false]
  · simp only [risk_ok, create_risk_assessment_tool, he, Bool.false_eq_true, if_false]
  · simp only [risk_ok, create_risk_assessment_tool, he, Bool.false_eq_true, if_false]
    calc ((risk_keywords.filter
          (fun kw => containsSub (text.map Char.toLower) kw.1.data)).map
            (fun kw => kw.2)).length
        = (risk_keywords.filter
          (fun kw => containsSub (text.map Char.toLower) kw.1.data)).length :=
          List.length_map _ _
      _ ≤ risk_keywords.length := List.length_filter_le _ _
      _ = 6 := rfl
  · simp only [risk_ok, create_risk_assessment_tool, he, Bool.false_eq_true, if_false]
    have hpw : risk_keywords.Pairwise (fun a b => a.2 ≠ b.2) := by decide
    exact List.Pairwise.map _ (fun a b h => h) (hpw.sublist (List.filter_sublist _))
  · intro kw hkw
    simp only [risk_ok, create_risk_assessment_tool, he, Bool.false_eq_true, if_false]
    rw [mem_map_snd_filter hkw (by decide), containsSub_iff]
  · simp only [risk_ok, create_risk_assessment_tool, he, Bool.false_eq_true, if_false,
      ge_iff_le]

/-- C5 witness: the general statement instantiated on a concrete
three-keyword document, recovering the per-category flag for
"litigation" and the count bound. -/
theorem C5_risk_assessment_witness :
    (risk_ok "Litigation and inflation and regulatory news.".data).risk_count ≤ 6 ∧
    ("Legal/litigation risk detected."
        ∈ (risk_ok "Litigation and inflation and regulatory news.".data).detected_risks ↔
      ∃ l rr, ("Litigation and inflation and regulatory news.".data.map Char.toLower)
        = l ++ "litigation".data ++ rr) := by
  obtain ⟨-, -, hle, -, hmem, -⟩ := C5_risk_assessment.1
    "Litigation and inflation and regulatory news.".data (by decide)
  exact ⟨hle, hmem ("litigation", "Legal/litigation risk detected.") (by decide)⟩

/-- Python `str.strip()`: drop leading and trailing whitespace. -/
def pyStrip (l : List Char) : List Char :=
  ((l.dropWhile isPySpace).reverse.dropWhile isPySpace).reverse

/-- Python `"\n".join(pages)`. -/
def joinPages : List (List Char) → List Char
  | [] => []
  | [p] => p
  | p :: q :: rest => p ++ '\n' :: joinPages (q :: rest)

/-- Association-list lookup keyed by `String` (models dict access). -/
def alookup {α : Type} : List (String × α) → String → Option α
  | [], _ => none
  | (k, v) :: t, k' => if k = k' then some v else alookup t k'

/-- Association-list upsert (models dict assignment / Mongo upsert). -/
def aupsert {α : Type} : List (String × α) → String → α → List (String × α)
  | [], k, v => [(k, v)]
  | (k', v') :: t, k, v =>
    if k' = k then (k, v) :: t else (k', v') :: aupsert t k v

/-- Association-list removal (models `os.remove` on the file table). -/
def aerase {α : Type} : List (String × α) → String → List (String × α)
  | [], _ => []
  | (k', v') :: t, k => if k' = k then t else (k', v') :: aerase t k

/-- The filesystem, as a table from paths to the page texts `fitz`
would extract from the stored PDF. -/
def FileSys : Type := List (String × List (List Char))

/-- `read_pdf_text` from `tools.py`: missing path raises
`FileNotFoundError`; pages are stripped, joined with newlines and
stripped again; blank total text raises `ValueError`. -/
def read_pdf_text (fs : FileSys) (path : String) : Except String (List Char) :=
  match alookup fs path with
  | none => .error ("PDF file not found: " ++ path)
  | some pages =>
    let full := pyStrip (joinPages (pages.map pyStrip))
    if full.isEmpty then .error "No extractable text found in the provided PDF"
    else .ok full

/-- Job lifecycle states of `main.py`. -/
inductive JobStatus
  | queued
  | processing
  | completed
  | failed
deriving DecidableEq

/-- The pair stored under `"analysis"` on success. -/
structure AnalysisResult where
  investment_analysis : InvestmentAnalysis
  risk_assessment : RiskAssessment
deriving DecidableEq

/-- One record of the in-memory `job_store` (timestamps, which no claim
depends on, are not modelled). -/
structure JobRec where
  job_id : String
  status : JobStatus
  query : String
  file_name : String
  file_path : String
  analysis : Option AnalysisResult
  error : Option String
  worker : Option String
deriving DecidableEq

/-- `run_single_analysis` from `main.py`: extraction, blank-text check,
investment analysis, risk assessment. -/
def run_single_analysis (fs : FileSys) (job : JobRec) :
    Except String AnalysisResult :=
  match read_pdf_text fs job.file_path with
  | .error e => .error e
  | .ok text =>
    if (pyStrip text).isEmpty then .error "Document contains no readable text."
    else
      match analyze_investment_tool text job.query.data with
      | .error e => .error e
      | .ok inv =>
        match create_risk_assessment_tool text with
        | .error e => .error e
        | .ok risk => .ok ⟨inv, risk⟩

/-- The `queued → processing` mutation performed by `worker_loop` right
after dequeuing. -/
def markProcessing (rec : JobRec) (wname : String) : JobRec :=
  { rec with status := .processing, worker := some wname }

/-- The terminal mutation of `worker_loop`'s try/except: `completed` with
the analysis attached on success, `failed` with the message on error. -/
def finishRecord (fs : FileSys) (rec : JobRec) : JobRec :=
  match run_single_analysis fs rec with
  | .ok a => { rec with status := .completed, analysis := some a }
  | .error e => { rec with status := .failed, error := some e }

/-- Observable outcome of one execution of `worker_loop`'s body for a
dequeued job: the record written to the store, whether the `os.remove`
cleanup was reached, whether that removal found the file, and whether
the worker coroutine survives to its next iteration. -/
structure IterOut where
  record : JobRec
  removeAttempted : Bool
  removeSucceeded : Bool
  survives : Bool
deriving DecidableEq

/-- One body execution of `worker_loop` (`main.py` lines 99-128) for a job
found in the store.  `persistFails` says whether the Mongo upsert inside
`persist_analysis` raises this time; it can only raise when a Mongo
backend is configured (`mongoCfg`), since `persist_analysis` returns
immediately when `mongo_db is None`.  The `finally` block runs
`persist_analysis` before the guarded `os.remove`, and nothing catches a
persistence error, so a raising persist skips the cleanup and
`task_done` and escapes the `while True` loop, killing the worker. -/
def workerIteration (fs : FileSys) (mongoCfg persistFails : Bool)
    (rec : JobRec) (wname : String) : IterOut :=
  let rec2 := finishRecord fs (markProcessing rec wname)
  if mongoCfg && persistFails then ⟨rec2, false, false, false⟩
  else ⟨rec2, true, (alookup fs rec.file_path).isSome, true⟩

/-- Global state of the service: in-memory `job_store`, the id FIFO
`job_queue`, ids dequeued and currently being processed by some worker,
the filesystem, and the optional Mongo mirror (`none` when persistence
is not configured). -/
structure SysState where
  store : List (String × JobRec)
  queue : List String
  inflight : List String
  fs : FileSys
  mongo : Option (List (String × JobRec))

/-- The upload path used by the submit endpoint. -/
def jobPath (id : String) : String := "data/financial_document_" ++ id ++ ".pdf"

/-- The record inserted by `analyze_financial_document` (status `queued`,
query stripped, no analysis/error/worker yet). -/
def newJobRec (id q fname : String) : JobRec :=
  ⟨id, .queued, ⟨pyStrip q.data⟩, fname, jobPath id, none, none, none⟩

/-- The submit endpoint `analyze_financial_document`: write the upload,
insert the queued record, mirror it, enqueue the id.  The Boolean result
records whether the uncaught `persist_analysis` raised to the caller; in
that case the id is never enqueued. -/
def submitNext (s : SysState) (id q fname : String) (pages : List (List Char))
    (persistFails : Bool) : SysState × Bool :=
  let rec0 := newJobRec id q fname
  let fs1 := aupsert s.fs (jobPath id) pages
  let st1 := aupsert s.store id rec0
  match s.mongo with
  | none => (⟨st1, s.queue ++ [id], s.inflight, fs1, none⟩, false)
  | some db =>
    if persistFails then (⟨st1, s.queue, s.inflight, fs1, some db⟩, true)
    else (⟨st1, s.queue ++ [id], s.inflight, fs1, some (aupsert db id rec0)⟩, false)

/-- A worker dequeues the head id and marks the record `processing`
(silently dropping ids absent from the store). -/
def startNext (s : SysState) (wname id : String) (rest : List String) : SysState :=
  match alookup s.store id with
  | none => { s with queue := rest }
  | some r0 => { s with store := aupsert s.store id (markProcessing r0 wname),
                        queue := rest,
                        inflight := s.inflight ++ [id] }

/-- A worker finishes an in-flight job: terminal record written to the
store, then the `finally` block — a raising `persist_analysis`
(`persistFails` with Mongo configured) skips both the mirror write and
the file removal; otherwise the mirror is upserted and the upload
removed (a removal of an absent path is a swallowed `OSError`). -/
def finishNext (s : SysState) (id : String) (persistFails : Bool) : SysState :=
  match alookup s.store id with
  | none => { s with inflight := s.inflight.erase id }
  | some r0 =>
    let rec2 := finishRecord s.fs r0
    let st1 := aupsert s.store id rec2
    let infl := s.inflight.erase id
    match s.mongo with
    | none => ⟨st1, s.queue, infl, aerase s.fs r0.file_path, none⟩
    | some db =>
      if persistFails then ⟨st1, s.queue, infl, s.fs, some db⟩
      else ⟨st1, s.queue, infl, aerase s.fs r0.file_path, some (aupsert db id rec2)⟩

/-- `GET /jobs/id`: the in-memory store is authoritative; the Mongo
mirror is consulted only on a store miss. -/
def get_job_status (s : SysState) (id : String) : Option JobRec :=
  match alookup s.store id with
  | some j => some j
  | none =>
    match s.mongo with
    | some db => alookup db id
    | none => none

/-- One interleaving step of the service: a submission with a fresh id, a
worker dequeue, a worker finish, or a read-only status query. -/
inductive Step : SysState → SysState → Prop
  | submit (s : SysState) (id q fname : String) (pages : List (List Char))
      (pf : Bool) (hfresh : alookup s.store id = none) :
      Step s (submitNext s id q fname pages pf).1
  | workerStart (s : SysState) (wname id : String) (rest : List String)
      (hq : s.queue = id :: rest) :
      Step s (startNext s wname id rest)
  | workerFinish (s : SysState) (id : String) (pf : Bool)
      (hin : id ∈ s.inflight) :
      Step s (finishNext s id pf)
  | statusQuery (s : SysState) : Step s s

/-- States reachable from an empty service, with or without a configured
Mongo backend. -/
inductive Reachable : SysState → Prop
  | initNoMongo : Reachable ⟨[], [], [], [], none⟩
  | initMongo : Reachable ⟨[], [], [], [], some []⟩
  | step {s s' : SysState} : Reachable s → Step s s' → Reachable s'

/-- The result/error discipline of one record. -/
def fieldsOk (r : JobRec) : Prop :=
  (r.status = .completed → r.analysis.isSome ∧ r.error = none) ∧
  (r.status = .failed → (r.error).isSome ∧ r.analysis = none) ∧
  ((r.status = .queued ∨ r.status = .processing) →
    r.analysis = none ∧ r.error = none)

/-- Inductive invariant of the service: queued ids map to `queued`
records, in-flight ids to `processing` records, no id is pending twice,
and every stored record satisfies the result/error discipline. -/
def SysInv (s : SysState) : Prop :=
  (∀ id, id ∈ s.queue → ∃ r, alookup s.store id = some r ∧ r.status = .queued) ∧
  (∀ id, id ∈ s.inflight →
    ∃ r, alookup s.store id = some r ∧ r.status = .processing) ∧
  (s.queue ++ s.inflight).Nodup ∧
  (∀ id r, alookup s.store id = some r → fieldsOk r)

lemma alookup_aupsert_self {α : Type} (l : List (String × α)) (k : String) (v : α) :
    alookup (aupsert l k v) k = some v := by
  induction l with
  | nil => simp [aupsert, alookup]
  | cons hd t ih =>
    obtain ⟨k0, v0⟩ := hd
    by_cases hk : k0 = k
    · subst hk
      simp [aupsert, alookup]
    · simp [aupsert, hk, alookup, ih]

lemma alookup_aupsert_ne {α : Type} (l : List (String × α)) {k k' : String} (v : α)
    (h : k ≠ k') : alookup (aupsert l k v) k' = alookup l k' := by
  induction l with
  | nil => simp [aupsert, alookup, h]
  | cons hd t ih =>
    obtain ⟨k0, v0⟩ := hd
    by_cases hk : k0 = k
    · subst hk
      simp [aupsert, alookup, h]
    · simp [aupsert, hk, alookup, ih]

lemma nodup_enqueue {qu infl : List String} {id : String}
    (h : (qu ++ infl).Nodup) (hq : id ∉ qu) (hi : id ∉ infl) :
    ((qu ++ [id]) ++ infl).Nodup := by
  rcases List.nodup_append.mp h with ⟨h1, h2, h3⟩
  refine List.nodup_append.mpr ⟨?_, h2, ?_⟩
  · refine List.nodup_append.mpr ⟨h1, by simp, ?_⟩
    intro a ha hb
    rw [List.mem_singleton] at hb
    subst hb
    exact hq ha
  · intro a ha hb
    rcases List.mem_append.mp ha with h4 | h4
    · exact h3 h4 hb
    · rw [List.mem_singleton] at h4
      subst h4
      exact hi hb

lemma nodup_move_to_inflight {qu infl : List String} {id : String}
    (h : ((id :: qu) ++ infl).Nodup) :
    (qu ++ (infl ++ [id])).Nodup := by
  rw [List.cons_append] at h
  rcases List.nodup_cons.mp h with ⟨hnotin, hrest⟩
  rcases List.nodup_append.mp hrest with ⟨h1, h2, h3⟩
  refine List.nodup_append.mpr ⟨h1, ?_, ?_⟩
  · refine List.nodup_append.mpr ⟨h2, by simp, ?_⟩
    intro a ha hb
    rw [List.mem_singleton] at hb
    subst hb
    exact hnotin (List.mem_append.mpr (Or.inr ha))
  · intro a ha hb
    rcases List.mem_append.mp hb with h4 | h4
    · exact h3 ha h4
    · rw [List.mem_singleton] at h4
      subst h4
      exact hnotin (List.mem_append.mpr (Or.inl ha))

lemma nodup_tail_append {id : String} {qu infl : List String}
    (h : ((id :: qu) ++ infl).Nodup) : (qu ++ infl).Nodup := by
  rw [List.cons_append] at h
  exact (List.nodup_cons.mp h).2

lemma nodup_erase_inflight {qu infl : List String} (id : String)
    (h : (qu ++ infl).Nodup) : (qu ++ infl.erase id).Nodup :=
  List.Nodup.sublist ((List.erase_sublist id infl).append_left qu) h

lemma fieldsOk_newJobRec (id q fname : String) : fieldsOk (newJobRec id q fname) := by
  refine ⟨?_, ?_, ?_⟩ <;> intro h <;> simp [newJobRec] at h ⊢

lemma fieldsOk_markProcessing {r0 : JobRec} (ha : r0.analysis = none)
    (he : r0.error = none) (wname : String) :
    fieldsOk (markProcessing r0 wname) := by
  refine ⟨?_, ?_, ?_⟩ <;> intro hst <;> simp [markProcessing] at hst ⊢
  exact ⟨ha, he⟩

lemma finishRecord_terminal (fs : FileSys) (r0 : JobRec) :
    (finishRecord fs r0).status = .completed ∨ (finishRecord fs r0).status = .failed := by
  unfold finishRecord
  split
  · exact Or.inl rfl
  · exact Or.inr rfl

lemma fieldsOk_finishRecord {fs : FileSys} {r0 : JobRec}
    (ha : r0.analysis = none) (he : r0.error = none) :
    fieldsOk (finishRecord fs r0) := by
  unfold finishRecord
  split
  · refine ⟨?_, ?_, ?_⟩ <;> intro hst <;> simp at hst ⊢
    exact he
  · refine ⟨?_, ?_, ?_⟩ <;> intro hst <;> simp at hst ⊢
    exact ha

lemma sysInv_submit {st : List (String × JobRec)} {infl : List String} {fs : FileSys}
    {mg : Option (List (String × JobRec))} {fs' : FileSys}
    {mg' : Option (List (String × JobRec))} {qu qu' : List String} {id : String}
    {r0 : JobRec} (hinv : SysInv ⟨st, qu, infl, fs, mg⟩)
    (hfresh : alookup st id = none) (hst : r0.status = JobStatus.queued)
    (hok : fieldsOk r0) (hq' : qu' = qu ++ [id] ∨ qu' = qu) :
    SysInv ⟨aupsert st id r0, qu', infl, fs', mg'⟩ := by
  obtain ⟨I1, I2, I3, I4⟩ := hinv
  have hnq : id ∉ qu := by
    intro hmem
    obtain ⟨r, hr, -⟩ := I1 id hmem
    rw [hfresh] at hr
    exact Option.noConfusion hr
  have hni : id ∉ infl := by
    intro hmem
    obtain ⟨r, hr, -⟩ := I2 id hmem
    rw [hfresh] at hr
    exact Option.noConfusion hr
  refine ⟨?_, ?_, ?_, ?_⟩
  · intro jd hjd
    by_cases hj : jd = id
    · subst hj
      exact ⟨r0, alookup_aupsert_self _ _ _, hst⟩
    · have hjq : jd ∈ qu := by
        rcases hq' with rfl | rfl
        · rcases List.mem_append.mp hjd with h | h
          · exact h
          · rw [List.mem_singleton] at h
            exact absurd h hj
        · exact hjd
      obtain ⟨r, hr, hrs⟩ := I1 jd hjq
      exact ⟨r, by rw [alookup_aupsert_ne _ _ (fun he => hj he.symm)]; exact hr, hrs⟩
  · intro jd hjd
    have hj : jd ≠ id := fun he => hni (he ▸ hjd)
    obtain ⟨r, hr, hrs⟩ := I2 jd hjd
    exact ⟨r, by rw [alookup_aupsert_ne _ _ (fun he => hj he.symm)]; exact hr, hrs⟩
  · rcases hq' with rfl | rfl
    · exact nodup_enqueue I3 hnq hni
    · exact I3
  · intro jd r hr
    by_cases hj : jd = id
    · subst hj
      rw [alookup_aupsert_self] at hr
      injection hr with h
      rw [← h]
      exact hok
    · rw [alookup_aupsert_ne _ _ (fun he => hj he.symm)] at hr
      exact I4 jd r hr

lemma sysInv_start {st : List (String × JobRec)} {infl : List String} {fs : FileSys}
    {mg : Option (List (String × JobRec))} {qu : List String} {id wname : String}
    {r0 : JobRec} (hinv : SysInv ⟨st, id :: qu, infl, fs, mg⟩)
    (hr : alookup st id = some r0) :
    SysInv ⟨aupsert st id (markProcessing r0 wname), qu, infl ++ [id], fs, mg⟩ := by
  obtain ⟨I1, I2, I3, I4⟩ := hinv
  obtain ⟨rq, hrq, hrqs⟩ := I1 id (List.mem_cons_self id qu)
  have hreq : rq = r0 := by
    rw [hr] at hrq
    injection hrq with h
    exact h.symm
  subst hreq
  have hfo := I4 id rq hr
  have hanone := hfo.2.2 (Or.inl hrqs)
  have hnotin : id ∉ qu ++ infl := by
    have h3 := I3
    rw [List.cons_append] at h3
    exact (List.nodup_cons.mp h3).1
  refine ⟨?_, ?_, ?_, ?_⟩
  · intro jd hjd
    have hj : jd ≠ id := fun he => by
      subst he
      exact hnotin (List.mem_append.mpr (Or.inl hjd))
    obtain ⟨r, hrr, hrs⟩ := I1 jd (List.mem_cons_of_mem _ hjd)
    exact ⟨r, by rw [alookup_aupsert_ne _ _ (fun he => hj he.symm)]; exact hrr, hrs⟩
  · intro jd hjd
    rcases List.mem_append.mp hjd with h | h
    · have hj : jd ≠ id := fun he => by
        subst he
        exact hnotin (List.mem_append.mpr (Or.inr h))
      obtain ⟨r, hrr, hrs⟩ := I2 jd h
      exact ⟨r, by rw [alookup_aupsert_ne _ _ (fun he => hj he.symm)]; exact hrr, hrs⟩
    · rw [List.mem_singleton] at h
      subst h
      exact ⟨markProcessing rq wname, alookup_aupsert_self _ _ _, rfl⟩
  · exact nodup_move_to_inflight I3
  · intro jd r hrr
    by_cases hj : jd = id
    · subst hj
      rw [alookup_aupsert_self] at hrr
      injection hrr with h
      rw [← h]
      exact fieldsOk_markProcessing hanone.1 hanone.2 wname
    · rw [alookup_aupsert_ne _ _ (fun he => hj he.symm)] at hrr
      exact I4 jd r hrr

lemma sysInv_finish {st : List (String × JobRec)} {qu infl : List String}
    {fs : FileSys} {mg : Option (List (String × JobRec))} {fs' : FileSys}
    {mg' : Option (List (String × JobRec))} {id : String} {r0 : JobRec}
    (hinv : SysInv ⟨st, qu, infl, fs, mg⟩) (hin : id ∈ infl)
    (hr : alookup st id = some r0) (ffs : FileSys) :
    SysInv ⟨aupsert st id (finishRecord ffs r0), qu, infl.erase id, fs', mg'⟩ := by
  obtain ⟨I1, I2, I3, I4⟩ := hinv
  obtain ⟨rp, hrp, hrps⟩ := I2 id hin
  have hreq : rp = r0 := by
    rw [hr] at hrp
    injection hrp with h
    exact h.symm
  subst hreq
  have hfo := I4 id rp hr
  have hne := hfo.2.2 (Or.inr hrps)
  have hnq : id ∉ qu := fun hmem => (List.nodup_append.mp I3).2.2 hmem hin
  have hinfl_nodup : infl.Nodup := (List.nodup_append.mp I3).2.1
  refine ⟨?_, ?_, ?_, ?_⟩
  · intro jd hjd
    have hj : jd ≠ id := fun he => hnq (he ▸ hjd)
    obtain ⟨r, hrr, hrs⟩ := I1 jd hjd
    exact ⟨r, by rw [alookup_aupsert_ne _ _ (fun he => hj he.symm)]; exact hrr, hrs⟩
  · intro jd hjd
    have hj : jd ≠ id := (hinfl_nodup.mem_erase_iff.mp hjd).1
    obtain ⟨r, hrr, hrs⟩ := I2 jd (List.mem_of_mem_erase hjd)
    exact ⟨r, by rw [alookup_aupsert_ne _ _ (fun he => hj he.symm)]; exact hrr, hrs⟩
  · exact nodup_erase_inflight id I3
  · intro jd r hrr
    by_cases hj : jd = id
    · subst hj
      rw [alookup_aupsert_self] at hrr
      injection hrr with h
      rw [← h]
      exact fieldsOk_finishRecord hne.1 hne.2
    · rw [alookup_aupsert_ne _ _ (fun he => hj he.symm)] at hrr
      exact I4 jd r hrr

lemma sysInv_tailqueue {st : List (String × JobRec)} {infl : List String}
    {fs : FileSys} {mg : Option (List (String × JobRec))} {fs' : FileSys}
    {mg' : Option (List (String × JobRec))} {qu : List String} {id : String}
    (hinv : SysInv ⟨st, id :: qu, infl, fs, mg⟩) :
    SysInv ⟨st, qu, infl, fs', mg'⟩ := by
  obtain ⟨I1, I2, I3, I4⟩ := hinv
  exact ⟨fun jd hjd => I1 jd (List.mem_cons_of_mem _ hjd), I2,
    nodup_tail_append I3, I4⟩

lemma sysInv_erase_inflight {st : List (String × JobRec)} {qu infl : List String}
    {fs : FileSys} {mg : Option (List (String × JobRec))} {fs' : FileSys}
    {mg' : Option (List (String × JobRec))} {id : String}
    (hinv : SysInv ⟨st, qu, infl, fs, mg⟩) :
    SysInv ⟨st, qu, infl.erase id, fs', mg'⟩ := by
  obtain ⟨I1, I2, I3, I4⟩ := hinv
  exact ⟨I1, fun jd hjd => I2 jd (List.mem_of_mem_erase hjd),
    nodup_erase_inflight id I3, I4⟩

lemma step_inv {s s' : SysState} (hstep : Step s s') (hinv : SysInv s) : SysInv s' := by
  cases hstep with
  | submit id q fname pages pf hfresh =>
    obtain ⟨st, qu, infl, fs, mg⟩ := s
    cases mg with
    | none =>
      simp only [submitNext]
      exact sysInv_submit hinv hfresh rfl (fieldsOk_newJobRec id q fname) (Or.inl rfl)
    | some db =>
      cases pf with
      | true =>
        simp only [submitNext, if_true]
        exact sysInv_submit hinv hfresh rfl (fieldsOk_newJobRec id q fname) (Or.inr rfl)
      | false =>
        simp only [submitNext, Bool.false_eq_true, if_false]
        exact sysInv_submit hinv hfresh rfl (fieldsOk_newJobRec id q fname) (Or.inl rfl)
  | workerStart wname id rest hq =>
    obtain ⟨st, qu, infl, fs, mg⟩ := s
    dsimp only at hq
    subst hq
    rcases hl : alookup st id with _ | r0
    · simp only [startNext, hl]
      exact sysInv_tailqueue hinv
    · simp only [startNext, hl]
      exact sysInv_start hinv hl
  | workerFinish id pf hin =>
    obtain ⟨st, qu, infl, fs, mg⟩ := s
    rcases hl : alookup st id with _ | r0
    · simp only [finishNext, hl]
      exact sysInv_erase_inflight hinv
    · cases mg with
      | none =>
        simp only [finishNext, hl]
        exact sysInv_finish hinv hin hl fs
      | some db =>
        cases pf with
        | true =>
          simp only [finishNext, hl, if_true]
          exact sysInv_finish hinv hin hl fs
        | false =>
          simp only [finishNext, hl, Bool.false_eq_true, if_false]
          exact sysInv_finish hinv hin hl fs
  | statusQuery => exact hinv

lemma reachable_inv {s : SysState} (h : Reachable s) : SysInv s := by
  induction h with
  | initNoMongo =>
    refine ⟨?_, ?_, ?_, ?_⟩
    · intro id hid
      cases hid
    · intro id hid
      cases hid
    · exact List.nodup_nil
    · intro id r hr
      exact Option.noConfusion hr
  | initMongo =>
    refine ⟨?_, ?_, ?_, ?_⟩
    · intro id hid
      cases hid
    · intro id hid
      cases hid
    · exact List.nodup_nil
    · intro id r hr
      exact Option.noConfusion hr
  | step hr hst ih => exact step_inv hst ih

/-- C6: in every reachable state, a stored record has its analysis
attached exactly when completed and an error exactly when failed, and
has neither while queued or processing. -/
theorem C6_result_error_exclusive :
    ∀ s id r, Reachable s → alookup s.store id = some r →
      (((r.status = .completed ∨ r.status = .failed) →
        (r.analysis.isSome ↔ r.status = .completed) ∧
        ((r.error).isSome ↔ r.status = .failed)) ∧
       ((r.status = .queued ∨ r.status = .processing) →
        r.analysis = none ∧ r.error = none)) := by
  intro s id r hreach hr
  obtain ⟨h1, h2, h3⟩ := (reachable_inv hreach).2.2.2 id r hr
  refine ⟨?_, h3⟩
  rintro (hc | hf)
  · obtain ⟨ha, he⟩ := h1 hc
    refine ⟨⟨fun _ => hc, fun _ => ha⟩, ?_, ?_⟩
    · intro hes
      rw [he] at hes
      exact Bool.noConfusion hes
    · intro hfs
      rw [hc] at hfs
      exact JobStatus.noConfusion hfs
  · obtain ⟨he, ha⟩ := h2 hf
    refine ⟨⟨?_, ?_⟩, fun _ => hf, fun _ => he⟩
    · intro has
      rw [ha] at has
      exact Bool.noConfusion has
    · intro hcs
      rw [hf] at hcs
      exact JobStatus.noConfusion hcs

/-- The empty no-Mongo initial state, used by concrete traces. -/
def exInit : SysState := ⟨[], [], [], [], none⟩

/-- State after submitting job "j1" with an upload whose PDF has no
pages (so its extracted text is blank). -/
def exS1 : SysState := (submitNext exInit "j1" "q1" "f.pdf" [] false).1

/-- State after worker-1 dequeues "j1". -/
def exS2 : SysState := startNext exS1 "worker-1" "j1" []

/-- State after worker-1 finishes "j1" (extraction fails on the blank
document, so the job fails). -/
def exS3 : SysState := finishNext exS2 "j1" false

lemma exS1_reachable : Reachable exS1 :=
  Reachable.step Reachable.initNoMongo
    (Step.submit exInit "j1" "q1" "f.pdf" [] false rfl)

lemma exS3_reachable : Reachable exS3 :=
  Reachable.step
    (Reachable.step exS1_reachable
      (Step.workerStart exS1 "worker-1" "j1" [] rfl))
    (Step.workerFinish exS2 "j1" false (by decide))

/-- C6 witness: in the reachable state right after submitting "j1", the
queued record has neither analysis nor error. -/
theorem C6_result_error_exclusive_witness :
    ∃ r, alookup exS1.store "j1" = some r ∧ r.analysis = none ∧ r.error = none := by
  have hlook : alookup exS1.store "j1" = some (newJobRec "j1" "q1" "f.pdf") := by decide
  exact ⟨newJobRec "j1" "q1" "f.pdf", hlook,
    (C6_result_error_exclusive exS1 "j1" _ exS1_reachable hlook).2 (Or.inl rfl)⟩

/-- C7: terminal states are absorbing — a stored completed or failed
record is untouched by any further step, and the status endpoint keeps
returning exactly that record. -/
theorem C7_terminal_absorbing :
    ∀ s s' id r, Reachable s → alookup s.store id = some r →
      (r.status = .completed ∨ r.status = .failed) → Step s s' →
      alookup s'.store id = some r ∧ get_job_status s' id = some r := by
  intro s s' id r hreach hr hterm hstep
  obtain ⟨I1, I2, I3, I4⟩ := reachable_inv hreach
  have hterm_ne_queued : r.status ≠ JobStatus.queued := by
    rcases hterm with hc | hf
    · rw [hc]
      exact fun h => JobStatus.noConfusion h
    · rw [hf]
      exact fun h => JobStatus.noConfusion h
  have hterm_ne_proc : r.status ≠ JobStatus.processing := by
    rcases hterm with hc | hf
    · rw [hc]
      exact fun h => JobStatus.noConfusion h
    · rw [hf]
      exact fun h => JobStatus.noConfusion h
  have hmain : alookup s'.store id = some r := by
    cases hstep with
    | submit id2 q fname pages pf hfresh =>
      have hne : id2 ≠ id := fun he => by
        rw [he, hr] at hfresh
        exact Option.noConfusion hfresh
      obtain ⟨st, qu, infl, fs, mg⟩ := s
      cases mg with
      | none =>
        simp only [submitNext]
        rw [alookup_aupsert_ne _ _ hne]
        exact hr
      | some db =>
        cases pf with
        | true =>
          simp only [submitNext, if_true]
          rw [alookup_aupsert_ne _ _ hne]
          exact hr
        | false =>
          simp only [submitNext, Bool.false_eq_true, if_false]
          rw [alookup_aupsert_ne _ _ hne]
          exact hr
    | workerStart wname id2 rest hq =>
      obtain ⟨rq, hrq, hrqs⟩ := I1 id2 (by rw [hq]; exact List.mem_cons_self _ _)
      have hne : id2 ≠ id := by
        intro he
        rw [he, hr] at hrq
        injection hrq with h
        rw [← h] at hrqs
        exact hterm_ne_queued hrqs
      obtain ⟨st, qu, infl, fs, mg⟩ := s
      rcases hl : alookup st id2 with _ | r0
      · simp only [startNext, hl]
        exact hr
      · simp only [startNext, hl]
        rw [alookup_aupsert_ne _ _ hne]
        exact hr
    | workerFinish id2 pf hin =>
      obtain ⟨rp, hrp, hrps⟩ := I2 id2 hin
      have hne : id2 ≠ id := by
        intro he
        rw [he, hr] at hrp
        injection hrp with h
        rw [← h] at hrps
        exact hterm_ne_proc hrps
      obtain ⟨st, qu, infl, fs, mg⟩ := s
      rcases hl : alookup st id2 with _ | r0
      · simp only [finishNext, hl]
        exact hr
      · cases mg with
        | none =>
          simp only [finishNext, hl]
          rw [alookup_aupsert_ne _ _ hne]
          exact hr
        | some db =>
          cases pf with
          | true =>
            simp only [finishNext, hl, if_true]
            rw [alookup_aupsert_ne _ _ hne]
            exact hr
          | false =>
            simp only [finishNext, hl, Bool.false_eq_true, if_false]
            rw [alookup_aupsert_ne _ _ hne]
            exact hr
    | statusQuery => exact hr
  refine ⟨hmain, ?_⟩
  unfold get_job_status
  rw [hmain]

/-- The failed record of job "j1" in `exS3`. -/
def exRecF : JobRec :=
  ⟨"j1", .failed, "q1", "f.pdf", "data/financial_document_j1.pdf", none,
    some "No extractable text found in the provided PDF", some "worker-1"⟩

/-- C7 witness: the failed record of "j1" survives a further (read-only)
step unchanged, and the status endpoint still serves it. -/
theorem C7_terminal_absorbing_witness :
    alookup exS3.store "j1" = some exRecF ∧ get_job_status exS3 "j1" = some exRecF := by
  have hlook : alookup exS3.store "j1" = some exRecF := by decide
  exact C7_terminal_absorbing exS3 exS3 "j1" exRecF exS3_reachable hlook
    (Or.inr rfl) (Step.statusQuery exS3)

lemma dropWhile_nil_of_all {p : Char → Bool} {l : List Char}
    (h : l.all p = true) : l.dropWhile p = [] := by
  induction l with
  | nil => rfl
  | cons a t ih =>
    rw [List.all_cons, Bool.and_eq_true] at h
    rw [List.dropWhile_cons, h.1]
    exact ih h.2

lemma pyStrip_nil_of_all_space {l : List Char} (h : l.all isPySpace = true) :
    pyStrip l = [] := by
  unfold pyStrip
  rw [dropWhile_nil_of_all h]
  rfl

lemma joinPages_all_space : ∀ {ps : List (List Char)},
    (∀ p ∈ ps, p.all isPySpace = true) → (joinPages ps).all isPySpace = true := by
  intro ps
  induction ps with
  | nil => intro _; rfl
  | cons p rest ih =>
    intro h
    cases rest with
    | nil => exact h p (List.mem_cons_self _ _)
    | cons q rest2 =>
      have hp := h p (List.mem_cons_self _ _)
      have hrest := ih (fun x hx => h x (List.mem_cons_of_mem _ hx))
      rw [joinPages, List.all_append, List.all_cons]
      rw [hp, hrest]
      rfl

lemma read_blank_error {fs : FileSys} {path : String} {pages : List (List Char)}
    (hl : alookup fs path = some pages)
    (hall : pages.all (fun p => p.all isPySpace) = true) :
    read_pdf_text fs path = .error "No extractable text found in the provided PDF" := by
  have h1 : ∀ p ∈ pages.map pyStrip, p.all isPySpace = true := by
    intro p hp
    obtain ⟨p0, hp0, hpp⟩ := List.mem_map.mp hp
    have h0 := List.all_eq_true.mp hall p0 hp0
    rw [← hpp, pyStrip_nil_of_all_space (by simpa using h0)]
    rfl
  have h3 := pyStrip_nil_of_all_space (joinPages_all_space h1)
  simp only [read_pdf_text, hl, h3, List.isEmpty_nil, if_true]

/-- C8: when every extracted page of a job's document is blank or
whitespace-only, the worker's terminal transition marks the job failed
(with the extraction error message), never completed. -/
theorem C8_blank_text_fails :
    ∀ (fs : FileSys) (rec1 : JobRec) (pages : List (List Char)),
      alookup fs rec1.file_path = some pages →
      pages.all (fun p => p.all isPySpace) = true →
      (finishRecord fs rec1).status = .failed ∧
      (finishRecord fs rec1).status ≠ .completed ∧
      (finishRecord fs rec1).error =
        some "No extractable text found in the provided PDF" := by
  intro fs rec1 pages hl hall
  have herr : run_single_analysis fs rec1 =
      .error "No extractable text found in the provided PDF" := by
    unfold run_single_analysis
    rw [read_blank_error hl hall]
  refine ⟨?_, ?_, ?_⟩ <;> simp [finishRecord, herr]

/-- A record in `processing` state used to exercise the worker body on a
blank two-page document. -/
def c8rec : JobRec := ⟨"j8", .processing, "q", "f.pdf", "p8.pdf", none, none, some "w"⟩

/-- C8 witness: a document whose two pages hold only whitespace fails. -/
theorem C8_blank_text_fails_witness :
    (finishRecord [("p8.pdf", [[' ', '\n'], []])] c8rec).status = .failed :=
  (C8_blank_text_fails [("p8.pdf", [[' ', '\n'], []])] c8rec [[' ', '\n'], []]
    (by decide) (by decide)).1

/-- C9: a job whose source path is missing from the filesystem fails on
the terminal transition with the `FileNotFoundError` message, never
reaching completed. -/
theorem C9_missing_file_fails :
    ∀ (fs : FileSys) (rec1 : JobRec), alookup fs rec1.file_path = none →
      (finishRecord fs rec1).status = .failed ∧
      (finishRecord fs rec1).error = some ("PDF file not found: " ++ rec1.file_path) ∧
      (finishRecord fs rec1).status ≠ .completed := by
  intro fs rec1 hl
  have herr : run_single_analysis fs rec1 =
      .error ("PDF file not found: " ++ rec1.file_path) := by
    simp only [run_single_analysis, read_pdf_text, hl]
  refine ⟨?_, ?_, ?_⟩ <;> simp [finishRecord, herr]

/-- A record in `processing` state whose source file does not exist. -/
def c9rec : JobRec := ⟨"j9", .processing, "q", "f.pdf", "p9.pdf", none, none, some "w"⟩

/-- C9 witness: the missing-file failure on an empty filesystem. -/
theorem C9_missing_file_fails_witness :
    (finishRecord [] c9rec).status = .failed ∧
    (finishRecord [] c9rec).error = some "PDF file not found: p9.pdf" := by
  have h := C9_missing_file_fails [] c9rec rfl
  exact ⟨h.1, h.2.1⟩

/-- A `queued` record used to exercise the worker body. -/
def c2rec : JobRec := ⟨"j2", .queued, "q", "f.pdf", "p2.pdf", none, none, none⟩

/-- C2 counterexample: with Mongo configured, a raising `persist_analysis`
in the worker's `finally` block escapes `worker_loop` — the persistence
failure is fatal to the worker (even though the job record did reach a
terminal state in the store). -/
theorem C2_persist_failure_cex :
    (workerIteration [] true true c2rec "worker-1").survives = false ∧
    (workerIteration [] true true c2rec "worker-1").record.status = .failed := by decide

/-- C2 amended: a persistence failure never rolls back the in-memory
terminal transition — the written record is the same whether or not
`persist_analysis` raises, and is terminal — but it does propagate: the
worker survives its iteration exactly when the (configured) persist call
does not raise, and the submit path raises to its caller exactly when a
configured persist call fails, in which case the job is stored but never
enqueued. -/
theorem C2_persist_failure_amended :
    (∀ (fs : FileSys) (cfg : Bool) (rec1 : JobRec) (wname : String),
      (workerIteration fs cfg true rec1 wname).record
        = (workerIteration fs cfg false rec1 wname).record ∧
      ((workerIteration fs cfg true rec1 wname).record.status = .completed ∨
       (workerIteration fs cfg true rec1 wname).record.status = .failed)) ∧
    (∀ (fs : FileSys) (cfg pfail : Bool) (rec1 : JobRec) (wname : String),
      (workerIteration fs cfg pfail rec1 wname).survives = !(cfg && pfail)) ∧
    (∀ (s : SysState) (id q fname : String) (pages : List (List Char)) (pfail : Bool),
      ((submitNext s id q fname pages pfail).2 = true ↔
        s.mongo.isSome = true ∧ pfail = true) ∧
      ((submitNext s id q fname pages pfail).2 = true →
        (submitNext s id q fname pages pfail).1.queue = s.queue ∧
        alookup (submitNext s id q fname pages pfail).1.store id
          = some (newJobRec id q fname))) := by
  refine ⟨?_, ?_, ?_⟩
  · intro fs cfg rec1 wname
    cases cfg with
    | false => exact ⟨rfl, finishRecord_terminal fs (markProcessing rec1 wname)⟩
    | true => exact ⟨rfl, finishRecord_terminal fs (markProcessing rec1 wname)⟩
  · intro fs cfg pfail rec1 wname
    cases cfg <;> cases pfail <;> rfl
  · intro s id q fname pages pfail
    obtain ⟨st, qu, infl, fs, mg⟩ := s
    cases mg with
    | none =>
      cases pfail <;>
        simp [submitNext]
    | some db =>
      cases pfail with
      | false => simp [submitNext]
      | true => simp [submitNext, alookup_aupsert_self]

/-- C2 amended witness: with no Mongo backend the persist call cannot
raise and the worker survives its iteration. -/
theorem C2_persist_failure_amended_witness :
    (workerIteration [] false false c2rec "worker-1").survives = true :=
  (C2_persist_failure_amended.2.1 [] false false c2rec "worker-1").trans (by decide)

/-- A `queued` record used to exercise the cleanup behaviour. -/
def c3rec : JobRec := ⟨"j3", .queued, "q", "f.pdf", "p3.pdf", none, none, none⟩

/-- C3 counterexample: when the persist call of the terminal transition
raises, the job has reached a terminal state yet the `os.remove` cleanup
is never attempted — deletion is not unconditional. -/
theorem C3_cleanup_cex :
    (workerIteration [] true true c3rec "worker-1").record.status = .failed ∧
    (workerIteration [] true true c3rec "worker-1").removeAttempted = false := by decide

/-- C3 amended: whenever the terminal transition's persist call does not
raise (in particular whenever persistence is disabled), the worker
attempts the deletion of the job's source artifact exactly once — a
deletion failure (absent file) is swallowed and the worker survives
either way — and a terminal job is never queued or in flight again, so
no further iteration can attempt a second deletion; but when
`persist_analysis` raises, the deletion is skipped. -/
theorem C3_cleanup_amended :
    (∀ (fs : FileSys) (cfg pfail : Bool) (rec1 : JobRec) (wname : String),
      ¬(cfg = true ∧ pfail = true) →
      (workerIteration fs cfg pfail rec1 wname).removeAttempted = true ∧
      (workerIteration fs cfg pfail rec1 wname).survives = true) ∧
    (∀ (fs : FileSys) (cfg : Bool) (rec1 : JobRec) (wname : String),
      (workerIteration fs cfg false rec1 wname).removeSucceeded
        = (alookup fs rec1.file_path).isSome ∧
      (workerIteration fs cfg false rec1 wname).survives = true) ∧
    (∀ (s : SysState) (id : String) (r : JobRec), Reachable s →
      alookup s.store id = some r → (r.status = .completed ∨ r.status = .failed) →
      id ∉ s.queue ∧ id ∉ s.inflight) ∧
    (∀ (fs : FileSys) (cfg : Bool) (rec1 : JobRec) (wname : String),
      (workerIteration fs cfg true rec1 wname).removeAttempted = !cfg) := by
  refine ⟨?_, ?_, ?_, ?_⟩
  · intro fs cfg pfail rec1 wname h
    cases cfg with
    | false => exact ⟨rfl, rfl⟩
    | true =>
      cases pfail with
      | false => exact ⟨rfl, rfl⟩
      | true => exact absurd ⟨rfl, rfl⟩ h
  · intro fs cfg rec1 wname
    cases cfg <;> exact ⟨rfl, rfl⟩
  · intro s id r hreach hr hterm
    obtain ⟨I1, I2, I3, I4⟩ := reachable_inv hreach
    constructor
    · intro hmem
      obtain ⟨rq, hrq, hrqs⟩ := I1 id hmem
      rw [hr] at hrq
      injection hrq with h
      rw [← h] at hrqs
      rcases hterm with hc | hf
      · rw [hc] at hrqs
        exact JobStatus.noConfusion hrqs
      · rw [hf] at hrqs
        exact JobStatus.noConfusion hrqs
    · intro hmem
      obtain ⟨rp, hrp, hrps⟩ := I2 id hmem
      rw [hr] at hrp
      injection hrp with h
      rw [← h] at hrps
      rcases hterm with hc | hf
      · rw [hc] at hrps
        exact JobStatus.noConfusion hrps
      · rw [hf] at hrps
        exact JobStatus.noConfusion hrps
  · intro fs cfg rec1 wname
    cases cfg <;> rfl

/-- C3 amended witness: with persistence disabled the cleanup is
attempted, a missing file is swallowed, and the worker survives. -/
theorem C3_cleanup_amended_witness :
    (workerIteration [] false false c3rec "worker-1").removeAttempted = true ∧
    (workerIteration [] false false c3rec "worker-1").removeSucceeded = false := by
  refine ⟨(C3_cleanup_amended.1 [] false false c3rec "worker-1" (by decide)).1, ?_⟩
  have h := (C3_cleanup_amended.2.1 [] false c3rec "worker-1").1
  rw [h]
  rfl
